import Mathlib

set_option maxHeartbeats 1000000
set_option maxRecDepth 8000

/-!
Verification of the `get_cc_hist.py` Claude-Code-history-to-markdown converter.

The script is embedded shallowly: parsed JSON values become the inductive
type `Json` below (numbers are modelled as integers; none of the verified
properties inspects non-integral numerics), Python strings become Lean
`String`/`List Char` (both count code points, like Python), and Python
functions that can raise are modelled as `Option`-valued functions where
`none` is the raising outcome (the script catches any exception at the
per-file boundary).  Python `dict`s built by `json.loads` have unique keys;
they are modelled as association lists looked up by first match.
-/

/-- JSON values as produced by Python's `json.loads`. -/
inductive Json where
  | null
  | bool (b : Bool)
  | num (n : Int)
  | str (s : String)
  | arr (items : List Json)
  | obj (fields : List (String × Json))

/-- A parsed JSONL record: the field list of a JSON object. -/
abbrev Entry := List (String × Json)

/-- First-match association lookup, modelling Python `dict.get(key)` (`None` when absent). -/
def jGet : Entry → String → Option Json
  | [], _ => none
  | (k, v) :: rest, key => if k = key then some v else jGet rest key

/-- Python `dict.get(key, default)`. -/
def jGetD (m : Entry) (key : String) (d : Json) : Json := (jGet m key).getD d

/-- Python truthiness of a parsed JSON value. -/
def jTruthy : Json → Bool
  | .null => false
  | .bool b => b
  | .num n => n != 0
  | .str s => s != ""
  | .arr items => !items.isEmpty
  | .obj fields => !fields.isEmpty

/-- Python `value == "literal"`: true exactly when the value is that string. -/
def jEqStr (j : Json) (s : String) : Bool :=
  match j with
  | .str t => t = s
  | _ => false

/-- Characters stripped by Python `str.strip()` (the ASCII whitespace set;
the exotic Unicode whitespace Python also strips does not occur in this pipeline). -/
def isPySpace (c : Char) : Bool :=
  c = ' ' || c = '\t' || c = '\n' || c = '\r' || c = '\x0b' || c = '\x0c'

/-- Characters matched by the regex class `[0-9;]` (equal to `[\d;]` on the ASCII inputs modelled). -/
def isParamCh (c : Char) : Bool := c.isDigit || c = ';'

/-- Characters matched by the regex class `[a-zA-Z]`. -/
def isAsciiLetterCh (c : Char) : Bool :=
  ('a' ≤ c && c ≤ 'z') || ('A' ≤ c && c ≤ 'Z')

/-- Python `str.strip()` on a character list. -/
def pyStripL (l : List Char) : List Char :=
  ((l.dropWhile isPySpace).reverse.dropWhile isPySpace).reverse

/-- Python `str.strip()`. -/
def pyStrip (s : String) : String := String.mk (pyStripL s.toList)

theorem lengthDropWhileLe {α : Type} (p : α → Bool) (l : List α) :
    (l.dropWhile p).length ≤ l.length := by
  induction l with
  | nil => simp [List.dropWhile]
  | cons a t ih =>
    by_cases h : p a
    · simp only [List.dropWhile_cons, h, if_true]
      exact Nat.le_trans ih (Nat.le_succ _)
    · simp [List.dropWhile_cons, h]

/-- Leftmost match attempt for the regex `\x1b\[[0-9;]*[a-zA-Z]` at the head of
the list; on success returns the remainder after the match. -/
def tryCSI : List Char → Option (List Char)
  | a :: b :: rest =>
    if a = '\x1b' && b = '[' then
      match rest.dropWhile isParamCh with
      | c :: r2 => if isAsciiLetterCh c then some r2 else none
      | [] => none
    else none
  | _ => none

theorem tryCSI_length_lt {l r : List Char} (h : tryCSI l = some r) : r.length < l.length := by
  match l with
  | [] => simp [tryCSI] at h
  | [a] => simp [tryCSI] at h
  | a :: b :: rest =>
    simp only [tryCSI] at h
    split at h
    · rename_i hd
      split at h
      · rename_i c r2 hdrop
        split at h
        · cases h
          have hle : (rest.dropWhile isParamCh).length ≤ rest.length :=
            lengthDropWhileLe isParamCh rest
          rw [hdrop] at hle
          simp only [List.length_cons] at hle ⊢
          omega
        · cases h
      · cases h
    · cases h

/-- Fuel-driven scan deleting every leftmost, non-overlapping match of the ANSI
CSI pattern; each step consumes at least one character (`tryCSI_length_lt`), so
fuel equal to the line length is always sufficient. -/
def stripCSIF : Nat → List Char → List Char
  | _, [] => []
  | 0, l => l
  | fuel + 1, c :: t =>
    match tryCSI (c :: t) with
    | some r => stripCSIF fuel r
    | none => c :: stripCSIF fuel t

/-- `re.sub(r"\x1b\[[0-9;]*[a-zA-Z]", "", line)`. -/
def stripCSI (l : List Char) : List Char := stripCSIF l.length l

/-- Whether the line contains any match of the ANSI CSI pattern. -/
def hasCSI : List Char → Bool
  | [] => false
  | c :: t => (tryCSI (c :: t)).isSome || hasCSI t

/-- Leftmost match attempt for the regex `\[[\d;]*m` at the head of the list. -/
def tryBrM : List Char → Option (List Char)
  | a :: rest =>
    if a = '[' then
      match rest.dropWhile isParamCh with
      | c :: r2 => if c = 'm' then some r2 else none
      | [] => none
    else none
  | [] => none

theorem tryBrM_length_lt {l r : List Char} (h : tryBrM l = some r) : r.length < l.length := by
  match l with
  | [] => simp [tryBrM] at h
  | a :: rest =>
    simp only [tryBrM] at h
    split at h
    · split at h
      · rename_i c r2 hdrop
        split at h
        · cases h
          have hle : (rest.dropWhile isParamCh).length ≤ rest.length :=
            lengthDropWhileLe isParamCh rest
          rw [hdrop] at hle
          simp only [List.length_cons] at hle ⊢
          omega
        · cases h
      · cases h
    · cases h

/-- Fuel-driven scan deleting every match of the bare bracketed-color pattern;
fuel equal to the line length is sufficient by `tryBrM_length_lt`. -/
def stripBrMF : Nat → List Char → List Char
  | _, [] => []
  | 0, l => l
  | fuel + 1, c :: t =>
    match tryBrM (c :: t) with
    | some r => stripBrMF fuel r
    | none => c :: stripBrMF fuel t

/-- `re.sub(r"\[[\d;]*m", "", line)`. -/
def stripBrM (l : List Char) : List Char := stripBrMF l.length l

/-- Whether the line contains any match of the bracketed-color pattern. -/
def hasBrM : List Char → Bool
  | [] => false
  | c :: t => (tryBrM (c :: t)).isSome || hasBrM t

/-- The three-character arrow text appearing in the line-number regex of the
source (code points U+201A U+00DC U+00ED). -/
def arrowChars : List Char := ['‚', 'Ü', 'í']

/-- Anchored match attempt for the regex `^\s*\d+` followed by the arrow text;
on success returns the line with the matched prefix removed. -/
def tryLineNum (l : List Char) : Option (List Char) :=
  let r1 := l.dropWhile isPySpace
  let ds := r1.takeWhile Char.isDigit
  let r2 := r1.dropWhile Char.isDigit
  if ds ≠ [] ∧ arrowChars.isPrefixOf r2 then some (r2.drop 3) else none

/-- `re.sub(r"^\s*\d+" + arrow, "", line)` (the pattern is anchored, so at most
one substitution happens). -/
def stripLineNum (l : List Char) : List Char :=
  match tryLineNum l with
  | some r => r
  | none => l

/-- Whether the line starts with the line-number-arrow pattern. -/
def hasLineNumArrow (l : List Char) : Bool := (tryLineNum l).isSome

/-- Removal of one leading tab, as in the source's `if line.startswith("\t")`. -/
def tabStrip (l : List Char) : List Char :=
  match l with
  | c :: t => if c = '\t' then t else c :: t
  | [] => []

/-- The per-line body of `clean_tool_output`: the two ANSI substitutions, the
line-number substitution, then the leading-tab strip, in source order. -/
def cleanLine (l : List Char) : List Char :=
  tabStrip (stripLineNum (stripBrM (stripCSI l)))

/-- Python `s.split("\n")` on a character list. -/
def splitLines : List Char → List (List Char)
  | [] => [[]]
  | c :: t =>
    match splitLines t with
    | cur :: rest => if c = '\n' then [] :: cur :: rest else (c :: cur) :: rest
    | [] => [[]]

/-- Python `sep.flatten(parts)` on character lists. -/
def joinLines (sep : List Char) : List (List Char) → List Char
  | [] => []
  | [x] => x
  | x :: y :: rest => x ++ sep ++ joinLines sep (y :: rest)

/-- `clean_tool_output` from the source: split into lines, apply the two ANSI
substitutions, the line-number substitution and the tab strip to each line,
and rejoin (empty input is returned unchanged by the early `if not output`). -/
def clean_tool_output (s : String) : String :=
  if s = "" then s
  else String.mk (joinLines ['\n'] ((splitLines s.toList).map cleanLine))

/-- Python `s[:n]` on a string (slice of the first `n` code points). -/
def strTake (s : String) (n : Nat) : String := String.mk (s.toList.take n)

/-- Python `s[n:]` on a string. -/
def strDrop (s : String) (n : Nat) : String := String.mk (s.toList.drop n)

/-- Lower-case hexadecimal digit. -/
def hexDigit (n : Nat) : Char := if n < 10 then Char.ofNat (48 + n) else Char.ofNat (87 + n)

/-- Four-digit lower-case hexadecimal rendering, as in `\uXXXX` escapes. -/
def hex4 (n : Nat) : List Char :=
  [hexDigit (n / 4096 % 16), hexDigit (n / 256 % 16), hexDigit (n / 16 % 16), hexDigit (n % 16)]

/-- Escaping of one character inside a Python `repr` string delimited by quote `q`. -/
def pyReprEscape (q : Char) (c : Char) : List Char :=
  if c = '\\' then ['\\', '\\']
  else if c = q then ['\\', q]
  else if c = '\n' then ['\\', 'n']
  else if c = '\r' then ['\\', 'r']
  else if c = '\t' then ['\\', 't']
  else if c.toNat < 32 || c.toNat = 127 then ['\\', 'x', hexDigit (c.toNat / 16), hexDigit (c.toNat % 16)]
  else [c]

/-- Python `repr` of a string: single quotes, or double quotes when the text
contains a single quote but no double quote. -/
def pyReprStr (s : String) : String :=
  let q := if s.toList.contains '\'' && !(s.toList.contains '"') then '"' else '\''
  String.mk (q :: (s.toList.map (pyReprEscape q)).flatten ++ [q])

/-- Python `repr` of a parsed JSON value (used inside containers by `str`). -/
def pyRepr : Json → String
  | .null => "None"
  | .bool true => "True"
  | .bool false => "False"
  | .num n => toString n
  | .str s => pyReprStr s
  | .arr items =>
      "[" ++ String.intercalate ", " (items.attach.map fun x => pyRepr x.1) ++ "]"
  | .obj fields =>
      "\x7b" ++
        String.intercalate ", "
          (fields.attach.map fun x => pyReprStr x.1.1 ++ ": " ++ pyRepr x.1.2) ++
        "\x7d"
termination_by j => sizeOf j
decreasing_by
  · have := List.sizeOf_lt_of_mem x.2
    simp only [Json.arr.sizeOf_spec]
    omega
  · obtain ⟨⟨a, b⟩, hmem⟩ := x
    have := List.sizeOf_lt_of_mem hmem
    simp only [Prod.mk.sizeOf_spec] at this
    simp only [Json.obj.sizeOf_spec]
    omega

/-- Python `str()` of a parsed JSON value (as used by f-strings and `str(item)`). -/
def pyStr (j : Json) : String :=
  match j with
  | .str s => s
  | _ => pyRepr j

/-- Escaping of one character by `json.dumps` (default `ensure_ascii=True`). -/
def jEscapeChar (c : Char) : List Char :=
  if c = '"' then ['\\', '"']
  else if c = '\\' then ['\\', '\\']
  else if c = '\n' then ['\\', 'n']
  else if c = '\t' then ['\\', 't']
  else if c = '\r' then ['\\', 'r']
  else if c = '\x08' then ['\\', 'b']
  else if c = '\x0c' then ['\\', 'f']
  else if c.toNat < 32 || c.toNat > 126 then
    if c.toNat ≤ 65535 then '\\' :: 'u' :: hex4 c.toNat
    else
      let v := c.toNat - 65536
      ('\\' :: 'u' :: hex4 (55296 + v / 1024)) ++ ('\\' :: 'u' :: hex4 (56320 + v % 1024))
  else [c]

/-- A JSON string literal as emitted by `json.dumps`. -/
def jStrLit (s : String) : String :=
  "\"" ++ String.mk (s.toList.map jEscapeChar).flatten ++ "\""

/-- A run of spaces. -/
def indentStr (n : Nat) : String := String.mk (List.replicate n ' ')

/-- Python `json.dumps(value, indent=ind)` at nesting depth `level`. -/
def dumpJson : Json → Nat → Nat → String
  | .null, _, _ => "null"
  | .bool true, _, _ => "true"
  | .bool false, _, _ => "false"
  | .num n, _, _ => toString n
  | .str s, _, _ => jStrLit s
  | .arr [], _, _ => "[]"
  | .arr (it :: its), ind, level =>
      "[\n" ++
        String.intercalate ",\n"
          ((it :: its).attach.map fun x =>
            indentStr ((level + 1) * ind) ++ dumpJson x.1 ind (level + 1)) ++
        "\n" ++ indentStr (level * ind) ++ "]"
  | .obj [], _, _ => "\x7b\x7d"
  | .obj (f :: fs), ind, level =>
      "\x7b\n" ++
        String.intercalate ",\n"
          ((f :: fs).attach.map fun x =>
            indentStr ((level + 1) * ind) ++ jStrLit x.1.1 ++ ": " ++ dumpJson x.1.2 ind (level + 1)) ++
        "\n" ++ indentStr (level * ind) ++ "\x7d"
termination_by j _ _ => sizeOf j
decreasing_by
  · have := List.sizeOf_lt_of_mem x.2
    simp only [Json.arr.sizeOf_spec]
    omega
  · obtain ⟨⟨a, b⟩, hmem⟩ := x
    have := List.sizeOf_lt_of_mem hmem
    simp only [Prod.mk.sizeOf_spec] at this
    simp only [Json.obj.sizeOf_spec]
    omega

/-- Python `json.dumps(value, indent=ind)`. -/
def jsonDumps (j : Json) (ind : Nat) : String := dumpJson j ind 0

/-- `process_text_content` from the source: non-strings become `""`; strings are
cleaned, then blank lines are dropped and the remaining lines stripped. -/
def process_text_content (t : Json) : String :=
  match t with
  | .str s =>
    let cleaned := clean_tool_output s
    String.mk (joinLines ['\n'] (((splitLines cleaned.toList).map pyStripL).filter (· ≠ [])))
  | _ => ""

/-- `process_tool_use_content` from the source. -/
def process_tool_use_content (tool_name : Json) (tool_input : Json) : String :=
  let head := "**Tool Used:** " ++ pyStr tool_name
  if jTruthy tool_input then
    let ind := if (pyStr tool_input).length < 200 then 2 else 1
    head ++ "\n\n" ++ ("```json\n" ++ jsonDumps tool_input ind ++ "\n```")
  else head

/-- The tool-result label literal of the source, whose first four code points
are U+F8FF U+00FC U+00EE U+00DF (sixteen code points in total, matching the
hard-coded offset 16 in `format_tool_heavy_response`). -/
def toolResultLabel : String := "üîßTool Result:"

/-- `process_tool_result_content` from the source: string payloads are cleaned
and truncated to 2000 characters with a marker; other payloads are dumped as
indented JSON. -/
def process_tool_result_content (tr : Json) : String :=
  match tr with
  | .str s =>
    let cleaned := clean_tool_output s
    let body :=
      if cleaned.length > 2000 then strTake cleaned 2000 ++ "\n... (truncated)"
      else cleaned
    toolResultLabel ++ "\n```\n" ++ body ++ "\n```"
  | j => toolResultLabel ++ "\n```json\n" ++ jsonDumps j 2 ++ "\n```"

/-- Python `item.get("type") == "literal"` (`None` compares unequal to every string). -/
def optEqStr (o : Option Json) (s : String) : Bool :=
  match o with
  | some j => jEqStr j s
  | none => false

/-- Contribution of one list element in `format_content`, mirroring the
`if content_type == "text" / elif ... / elif ...` chain of the source: dict
items dispatch on their `type` (unrecognised types contribute nothing),
non-dict items contribute `str(item)`. -/
def renderItem (item : Json) : List String :=
  match item with
  | .obj fs =>
    let ct := jGet fs "type"
    if optEqStr ct "text" then
      let p := process_text_content (jGetD fs "text" (.str ""))
      if p = "" then [] else [p]
    else if optEqStr ct "tool_use" then
      [process_tool_use_content (jGetD fs "name" (.str "unknown")) (jGetD fs "input" (.obj []))]
    else if optEqStr ct "tool_result" then
      [process_tool_result_content (jGetD fs "content" (.str ""))]
    else []
  | _ => [pyStr item]

/-- `format_content` from the source. -/
def format_content : Json → String
  | .str s => clean_tool_output s
  | .arr items => String.intercalate "\n\n" (items.map renderItem).flatten
  | j => pyStr j

/-- `should_skip_message` from the source: `none` models the `AttributeError`
raised when the record's `message` field is present but not an object. -/
def should_skip_message (msg : Entry) : Option Bool :=
  match jGetD msg "message" (.obj []) with
  | .obj fs => some (pyStrip (format_content (jGetD fs "content" (.str ""))) == "")
  | _ => none

theorem stripCSIF_of_not_has : ∀ (fuel : Nat) (l : List Char), hasCSI l = false →
    stripCSIF fuel l = l := by
  intro fuel
  induction fuel with
  | zero => intro l _; cases l <;> rfl
  | succ f ih =>
    intro l h
    cases l with
    | nil => rfl
    | cons c t =>
      simp only [hasCSI, Bool.or_eq_false_iff] at h
      have htry : tryCSI (c :: t) = none := by
        cases htry : tryCSI (c :: t) with
        | none => rfl
        | some r => rw [htry] at h; simp at h
      simp only [stripCSIF, htry]
      rw [ih t h.2]

theorem stripCSI_of_not_has (l : List Char) (h : hasCSI l = false) : stripCSI l = l :=
  stripCSIF_of_not_has l.length l h

theorem stripBrMF_of_not_has : ∀ (fuel : Nat) (l : List Char), hasBrM l = false →
    stripBrMF fuel l = l := by
  intro fuel
  induction fuel with
  | zero => intro l _; cases l <;> rfl
  | succ f ih =>
    intro l h
    cases l with
    | nil => rfl
    | cons c t =>
      simp only [hasBrM, Bool.or_eq_false_iff] at h
      have htry : tryBrM (c :: t) = none := by
        cases htry : tryBrM (c :: t) with
        | none => rfl
        | some r => rw [htry] at h; simp at h
      simp only [stripBrMF, htry]
      rw [ih t h.2]

theorem stripBrM_of_not_has (l : List Char) (h : hasBrM l = false) : stripBrM l = l :=
  stripBrMF_of_not_has l.length l h

theorem stripLineNum_of_not_has (l : List Char) (h : hasLineNumArrow l = false) :
    stripLineNum l = l := by
  unfold hasLineNumArrow at h
  unfold stripLineNum
  cases htry : tryLineNum l with
  | none => rfl
  | some r => rw [htry] at h; simp at h

theorem tabStrip_of_head_ne (c : Char) (t : List Char) (h : c ≠ '\t') :
    tabStrip (c :: t) = c :: t := by
  simp [tabStrip, h]

/-- Per-line identity: a line containing no match of either ANSI pattern and no
line-number-arrow start is only subject to the leading-tab strip. -/
theorem cleanLine_eq_tabStrip (l : List Char) (h1 : hasCSI l = false)
    (h2 : hasBrM l = false) (h3 : hasLineNumArrow l = false) :
    cleanLine l = tabStrip l := by
  unfold cleanLine
  rw [stripCSI_of_not_has l h1, stripBrM_of_not_has l h2, stripLineNum_of_not_has l h3]

/-- C6: for every string in which no line contains a terminal-escape match of
either removal pattern and no line starts with the line-number arrow pattern,
`clean_tool_output` returns the string unchanged except that one leading tab is
stripped from each line. -/
theorem c6_sanitizer_identity (s : String)
    (h : ∀ line ∈ splitLines s.toList,
      hasCSI line = false ∧ hasBrM line = false ∧ hasLineNumArrow line = false) :
    clean_tool_output s = String.mk (joinLines ['\n'] ((splitLines s.toList).map tabStrip)) := by
  by_cases hs : s = ""
  · subst hs; rfl
  · unfold clean_tool_output
    rw [if_neg hs]
    congr 1
    congr 1
    apply List.map_congr_left
    intro line hline
    obtain ⟨h1, h2, h3⟩ := h line hline
    exact cleanLine_eq_tabStrip line h1 h2 h3

/-- Witness for C6 at the concrete input "\tab\n[cd" (the second line contains
a bracket but no full color-code match). -/
theorem c6_sanitizer_identity_witness :
    (∀ line ∈ splitLines "\tab\n[cd".toList,
      hasCSI line = false ∧ hasBrM line = false ∧ hasLineNumArrow line = false) ∧
    clean_tool_output "\tab\n[cd" =
      String.mk (joinLines ['\n'] ((splitLines "\tab\n[cd".toList).map tabStrip)) :=
  ⟨by decide, c6_sanitizer_identity "\tab\n[cd" (by decide)⟩

theorem hasCSI_of_no_esc (l : List Char) (h : ∀ c ∈ l, c ≠ '\x1b') : hasCSI l = false := by
  induction l with
  | nil => rfl
  | cons c t ih =>
    have hc : c ≠ '\x1b' := h c (List.mem_cons_self c t)
    have ht : hasCSI t = false := ih (fun x hx => h x (List.mem_cons_of_mem c hx))
    have htry : tryCSI (c :: t) = none := by
      cases t with
      | nil => rfl
      | cons b r => simp [tryCSI, hc]
    simp [hasCSI, htry, ht]

theorem hasBrM_of_no_bracket (l : List Char) (h : ∀ c ∈ l, c ≠ '[') : hasBrM l = false := by
  induction l with
  | nil => rfl
  | cons c t ih =>
    have hc : c ≠ '[' := h c (List.mem_cons_self c t)
    have ht : hasBrM t = false := ih (fun x hx => h x (List.mem_cons_of_mem c hx))
    have htry : tryBrM (c :: t) = none := by simp [tryBrM, hc]
    simp [hasBrM, htry, ht]

theorem hasLineNumArrow_of_plain (l : List Char)
    (h : ∀ c ∈ l, isPySpace c = false ∧ c.isDigit = false) : hasLineNumArrow l = false := by
  cases l with
  | nil => rfl
  | cons c t =>
    obtain ⟨hs, hd⟩ := h c (List.mem_cons_self c t)
    unfold hasLineNumArrow tryLineNum
    simp [List.dropWhile_cons, List.takeWhile_cons, hs, hd]

theorem splitLines_no_newline (l : List Char) (h : ∀ c ∈ l, c ≠ '\n') :
    splitLines l = [l] := by
  induction l with
  | nil => rfl
  | cons c t ih =>
    have hc : c ≠ '\n' := h c (List.mem_cons_self c t)
    have ht := ih (fun x hx => h x (List.mem_cons_of_mem c hx))
    simp [splitLines, ht, hc]

theorem cleanLine_replicate (n : Nat) : cleanLine (List.replicate n 'a') = List.replicate n 'a' := by
  have hmem : ∀ c ∈ List.replicate n 'a', c = 'a' := fun c hc => List.eq_of_mem_replicate hc
  rw [cleanLine_eq_tabStrip]
  · cases n with
    | zero => rfl
    | succ m =>
      rw [List.replicate_succ]
      exact tabStrip_of_head_ne 'a' _ (by decide)
  · exact hasCSI_of_no_esc _ (fun c hc => by rw [hmem c hc]; decide)
  · exact hasBrM_of_no_bracket _ (fun c hc => by rw [hmem c hc]; decide)
  · exact hasLineNumArrow_of_plain _ (fun c hc => by rw [hmem c hc]; decide)

/-- C2: for every string payload of a `tool_result` item, if the sanitized
payload exceeds 2000 characters the rendered body is exactly its first 2000
characters followed by the literal marker, wrapped in a fenced block with the
tool-result label; payloads of at most 2000 characters render whole with no
marker appended. -/
theorem c2_truncation (payload : String) :
    (2000 < (clean_tool_output payload).length →
      process_tool_result_content (Json.str payload) =
        toolResultLabel ++ "\n```\n" ++
          (strTake (clean_tool_output payload) 2000 ++ "\n... (truncated)") ++ "\n```") ∧
    ((clean_tool_output payload).length ≤ 2000 →
      process_tool_result_content (Json.str payload) =
        toolResultLabel ++ "\n```\n" ++ clean_tool_output payload ++ "\n```") := by
  constructor
  · intro h
    simp only [process_tool_result_content]
    rw [if_pos h]
  · intro h
    simp only [process_tool_result_content]
    rw [if_neg (by omega)]

/-- Witness for C2 at a 2001-character payload of letters `a`. -/
theorem c2_truncation_witness :
    2000 < (clean_tool_output (String.mk (List.replicate 2001 'a'))).length ∧
    process_tool_result_content (Json.str (String.mk (List.replicate 2001 'a'))) =
      toolResultLabel ++ "\n```\n" ++
        (strTake (clean_tool_output (String.mk (List.replicate 2001 'a'))) 2000 ++
          "\n... (truncated)") ++ "\n```" := by
  have hid : clean_tool_output (String.mk (List.replicate 2001 'a')) =
      String.mk (List.replicate 2001 'a') := by
    unfold clean_tool_output
    rw [if_neg (by
      intro hcontra
      have h1 : (String.mk (List.replicate 2001 'a')).length = 2001 := by
        rw [String.length_mk, List.length_replicate]
      rw [hcontra] at h1
      exact absurd h1 (by decide))]
    rw [show (String.mk (List.replicate 2001 'a')).toList = List.replicate 2001 'a' from rfl]
    rw [splitLines_no_newline _ (fun c hc => by rw [List.eq_of_mem_replicate hc]; decide)]
    rw [List.map_singleton, cleanLine_replicate]
    rfl
  have hlen : 2000 < (clean_tool_output (String.mk (List.replicate 2001 'a'))).length := by
    rw [hid, String.length_mk, List.length_replicate]
    omega
  exact ⟨hlen, (c2_truncation _).1 hlen⟩

/-- C9: the Content Renderer is a total function into strings (it is defined
for every `Json` value, so it cannot raise), and every content value that is
neither a string nor a list degrades to Python's generic `str()` rendering. -/
theorem c9_renderer_total (c : Json) (h1 : ∀ s, c ≠ Json.str s) (h2 : ∀ l, c ≠ Json.arr l) :
    format_content c = pyStr c := by
  cases c with
  | str s => exact absurd rfl (h1 s)
  | arr l => exact absurd rfl (h2 l)
  | null => rfl
  | bool b => rfl
  | num n => rfl
  | obj f => rfl

/-- Witness for C9 at the numeric content value `5`. -/
theorem c9_renderer_total_witness :
    (∀ s, Json.num 5 ≠ Json.str s) ∧ (∀ l, Json.num 5 ≠ Json.arr l) ∧
    format_content (Json.num 5) = pyStr (Json.num 5) := by
  refine ⟨?_, ?_, ?_⟩
  · intro s h
    cases h
  · intro l h
    cases h
  · exact c9_renderer_total (Json.num 5) (fun s h => by cases h) (fun l h => by cases h)

/-- A content item that is an object whose `type` is none of `text`,
`tool_use`, `tool_result` (the dropped shape that claim C10 is about). -/
def isDroppedItem (item : Json) : Bool :=
  match item with
  | .obj fs =>
    !(optEqStr (jGet fs "type") "text") && !(optEqStr (jGet fs "type") "tool_use") &&
      !(optEqStr (jGet fs "type") "tool_result")
  | _ => false

/-- C10: object items with an unrecognised `type` contribute nothing to the
rendered output, and a record whose content consists only of such items renders
empty and is skipped by the Message Filter. -/
theorem c10_unknown_items_dropped (items : List Json)
    (h : ∀ item ∈ items, isDroppedItem item = true) :
    format_content (Json.arr items) = "" ∧
    should_skip_message [("message", Json.obj [("content", Json.arr items)])] = some true := by
  have hren : ∀ item ∈ items, renderItem item = [] := by
    intro item hmem
    have hd := h item hmem
    cases item with
    | obj fs =>
      simp only [isDroppedItem, Bool.and_eq_true, Bool.not_eq_true'] at hd
      obtain ⟨⟨h1, h2⟩, h3⟩ := hd
      simp [renderItem, h1, h2, h3]
    | null => simp [isDroppedItem] at hd
    | bool b => simp [isDroppedItem] at hd
    | num n => simp [isDroppedItem] at hd
    | str s => simp [isDroppedItem] at hd
    | arr l => simp [isDroppedItem] at hd
  have hfc : format_content (Json.arr items) = "" := by
    have hfl : (items.map renderItem).flatten = [] := by
      revert hren
      clear h
      induction items with
      | nil => intro _; rfl
      | cons a t ih =>
        intro hren
        rw [List.map_cons, List.flatten_cons, hren a (List.mem_cons_self a t), List.nil_append]
        exact ih (fun x hx => hren x (List.mem_cons_of_mem a hx))
    simp only [format_content, hfl]
    rfl
  refine ⟨hfc, ?_⟩
  have hred : should_skip_message [("message", Json.obj [("content", Json.arr items)])] =
      some (pyStrip (format_content (Json.arr items)) == "") := rfl
  rw [hred, hfc]
  rfl

/-- Witness for C10 at a single `image`-typed item. -/
theorem c10_unknown_items_dropped_witness :
    (∀ item ∈ [Json.obj [("type", Json.str "image")]], isDroppedItem item = true) ∧
    (format_content (Json.arr [Json.obj [("type", Json.str "image")]]) = "" ∧
      should_skip_message
        [("message", Json.obj [("content", Json.arr [Json.obj [("type", Json.str "image")]])])] =
        some true) :=
  ⟨by decide, c10_unknown_items_dropped _ (by decide)⟩

/-- The claim's reading of a record's content: `message.content`, defaulting to
the empty string when the `message` or `content` field is absent. -/
def claimContentC1 (msg : Entry) : Json :=
  match jGet msg "message" with
  | some (.obj fs) => jGetD fs "content" (.str "")
  | _ => .str ""

/-- Records whose `message` field is absent or a JSON object — the shape on
which the filter returns a decision instead of raising. -/
def msgShapeOk (msg : Entry) : Bool :=
  match jGet msg "message" with
  | none => true
  | some (.obj _) => true
  | _ => false

theorem c1_core (msg : Entry) (hok : msgShapeOk msg = true) :
    should_skip_message msg = some (pyStrip (format_content (claimContentC1 msg)) == "") := by
  have hmsg := hok
  unfold msgShapeOk at hmsg
  unfold should_skip_message jGetD claimContentC1
  cases hm : jGet msg "message" with
  | none => rfl
  | some j =>
    rw [hm] at hmsg
    cases j with
    | obj fs => rfl
    | null => exact Bool.noConfusion hmsg
    | bool b => exact Bool.noConfusion hmsg
    | num n => exact Bool.noConfusion hmsg
    | str s => exact Bool.noConfusion hmsg
    | arr l => exact Bool.noConfusion hmsg

/-- C1: on every record whose `message` field is absent or an object, the
Message Filter skips the record exactly when rendering its `message.content`
(defaulting to the empty string when the `message` or `content` field is
absent) yields a string that is empty after stripping; and the decision depends
only on the `message` field, hence is uniform in the declared `type`. -/
theorem c1_filter_rule (msg : Entry) (hok : msgShapeOk msg = true) :
    (should_skip_message msg = some true ↔
      pyStrip (format_content (claimContentC1 msg)) = "") ∧
    (∀ m2 : Entry, jGet m2 "message" = jGet msg "message" →
      should_skip_message m2 = should_skip_message msg) := by
  constructor
  · rw [c1_core msg hok]
    constructor
    · intro h
      exact eq_of_beq (Option.some.inj h)
    · intro h
      rw [h]
      rfl
  · intro m2 he
    unfold should_skip_message jGetD
    rw [he]

/-- Witness for C1 at a user record with content "hi". -/
theorem c1_filter_rule_witness :
    msgShapeOk [("type", Json.str "user"), ("message", Json.obj [("content", Json.str "hi")])] =
      true ∧
    ((should_skip_message
        [("type", Json.str "user"), ("message", Json.obj [("content", Json.str "hi")])] =
          some true ↔
      pyStrip (format_content (claimContentC1
        [("type", Json.str "user"), ("message", Json.obj [("content", Json.str "hi")])])) = "") ∧
    (∀ m2 : Entry,
      jGet m2 "message" =
        jGet [("type", Json.str "user"), ("message", Json.obj [("content", Json.str "hi")])]
          "message" →
      should_skip_message m2 =
        should_skip_message
          [("type", Json.str "user"), ("message", Json.obj [("content", Json.str "hi")])])) :=
  ⟨by decide, c1_filter_rule _ (by decide)⟩

/-- Python `s.split(sep)` for a one-character separator. -/
def splitOnCh (sep : Char) : List Char → List (List Char)
  | [] => [[]]
  | c :: t =>
    match splitOnCh sep t with
    | cur :: rest => if c = sep then [] :: cur :: rest else (c :: cur) :: rest
    | [] => [[]]

/-- `PurePosixPath(s).name`: the last path component after dropping empty and
`"."` components (empty when there is none). -/
def posixName (s : String) : String :=
  match (((splitOnCh '/' s.toList).filter fun comp => comp ≠ [] ∧ comp ≠ ['.'])).getLast? with
  | some comp => String.mk comp
  | none => ""

/-- `extract_project_name` from the source. -/
def extract_project_name (cwd : String) : String :=
  if cwd ≠ "" then posixName cwd else "unknown_project"

/-- The characters replaced by `sanitize_filename` (regex class `[<>:"/\\|?*]`). -/
def isForbiddenCh (c : Char) : Bool :=
  c = '<' || c = '>' || c = ':' || c = '"' || c = '/' || c = '\\' || c = '|' || c = '?' || c = '*'

/-- `sanitize_filename` from the source: replace unsafe characters by an
underscore, then cap at 100 characters (97 plus a three-dot ellipsis). -/
def sanitize_filename (filename : String) : String :=
  let replaced := String.mk (filename.toList.map fun c => if isForbiddenCh c then '_' else c)
  if replaced.length > 100 then strTake replaced 97 ++ "..." else replaced

/-- The per-file accumulator of `process_jsonl_file`'s parsing loop. -/
structure LoadState where
  messages : List Entry
  summary : Json
  project_name : String
  session_id : Json

/-- Initial accumulator (`messages = []`, `summary = ""`,
`project_name = "unknown"`, `session_id = ""`). -/
def initState : LoadState :=
  { messages := [], summary := Json.str "", project_name := "unknown", session_id := Json.str "" }

/-- One iteration of the parsing loop on a successfully parsed line:
summary-typed entries overwrite the summary and are not collected; other
entries update project/session metadata and are appended.  `none` models the
`TypeError` raised by `Path(cwd)` when a truthy `cwd` is not a string. -/
def loadStep (st : LoadState) (entry : Entry) : Option LoadState :=
  if jEqStr (jGetD entry "type" Json.null) "summary" then
    some { st with summary := jGetD entry "summary" (Json.str "") }
  else
    match
      (if jTruthy (jGetD entry "cwd" Json.null) then
        (match jGetD entry "cwd" Json.null with
          | Json.str c => some (extract_project_name c)
          | _ => none)
      else some st.project_name) with
    | none => none
    | some pn =>
      let sid :=
        if jTruthy (jGetD entry "sessionId" Json.null) then jGetD entry "sessionId" Json.null
        else st.session_id
      some { messages := st.messages ++ [entry], summary := st.summary,
             project_name := pn, session_id := sid }

/-- The parsing loop of `process_jsonl_file` over the per-line parse results
(`none` elements are lines whose JSON parse failed and are silently skipped). -/
def loadLoop : LoadState → List (Option Entry) → Option LoadState
  | st, [] => some st
  | st, none :: rest => loadLoop st rest
  | st, some e :: rest =>
    match loadStep st e with
    | none => none
    | some st2 => loadLoop st2 rest

/-- The output-filename computation of `process_jsonl_file` (lines 213-216):
sanitized `project_summary` when a summary exists, otherwise the raw
`project_sessionid8`; `none` models the `TypeError` of slicing a non-string. -/
def outputFilename (summary : Json) (project_name : String) (session_id : Json) :
    Option String :=
  if jTruthy summary then
    some (sanitize_filename (project_name ++ "_" ++ pyStr summary))
  else
    match session_id with
    | Json.str s => some (project_name ++ "_" ++ strTake s 8)
    | _ => none

/-- Characterization used by the amended claim C3: each summary-typed valid
line overwrites the session summary, so the surviving value is the one of the
last summary-typed line (default empty). -/
def lastSummarySpec (lines : List (Option Entry)) : Json :=
  lines.foldl
    (fun acc l =>
      match l with
      | some e =>
        if jEqStr (jGetD e "type" Json.null) "summary" then jGetD e "summary" (Json.str "")
        else acc
      | none => acc)
    (Json.str "")

theorem loadStep_summary (st : LoadState) (e : Entry) (st2 : LoadState)
    (h : loadStep st e = some st2) :
    st2.summary =
      (if jEqStr (jGetD e "type" Json.null) "summary" then jGetD e "summary" (Json.str "")
       else st.summary) := by
  unfold loadStep at h
  by_cases hb : jEqStr (jGetD e "type" Json.null) "summary" = true
  · rw [if_pos hb] at h
    rw [if_pos hb]
    cases h
    rfl
  · rw [if_neg hb] at h
    rw [if_neg hb]
    split at h
    · exact Option.noConfusion h
    · cases h
      rfl

theorem loadLoop_summary (lines : List (Option Entry)) :
    ∀ (st0 st : LoadState), loadLoop st0 lines = some st →
      st.summary =
        lines.foldl
          (fun acc l =>
            match l with
            | some e =>
              if jEqStr (jGetD e "type" Json.null) "summary" then jGetD e "summary" (Json.str "")
              else acc
            | none => acc)
          st0.summary := by
  induction lines with
  | nil =>
    intro st0 st h
    cases h
    rfl
  | cons l rest ih =>
    intro st0 st h
    cases l with
    | none =>
      rw [List.foldl_cons]
      exact ih st0 st h
    | some e =>
      unfold loadLoop at h
      cases hstep : loadStep st0 e with
      | none => rw [hstep] at h; exact Option.noConfusion h
      | some st1 =>
        rw [hstep] at h
        rw [List.foldl_cons]
        show st.summary =
          List.foldl _
            (if jEqStr (jGetD e "type" Json.null) "summary" then jGetD e "summary" (Json.str "")
             else st0.summary) rest
        rw [← loadStep_summary st0 e st1 hstep]
        exact ih st1 st h

/-- Amended C3: the session summary is the `summary` field of the LAST
summary-typed record in file order (the source overwrites the variable on each
summary-typed line), not the first. -/
theorem c3_last_summary_wins (lines : List (Option Entry)) (st : LoadState)
    (h : loadLoop initState lines = some st) : st.summary = lastSummarySpec lines :=
  loadLoop_summary lines initState st h

/-- Counterexample for C3 as stated: with two summary records "A" then "B", the
extracted summary is "B" (the last), not "A" (the first). -/
theorem c3_counterexample :
    (loadLoop initState
      [some [("type", Json.str "summary"), ("summary", Json.str "A")],
       some [("type", Json.str "summary"), ("summary", Json.str "B")],
       some [("type", Json.str "user"), ("message", Json.obj [("content", Json.str "hi")])]]).map
        LoadState.summary = some (Json.str "B") ∧
    Json.str "B" ≠ Json.str "A" := by
  constructor
  · rfl
  · intro h
    injection h with h2
    exact absurd h2 (by decide)

/-- Witness for the amended C3 at the same two-summary input. -/
theorem c3_last_summary_wins_witness :
    loadLoop initState
      [some [("type", Json.str "summary"), ("summary", Json.str "A")],
       some [("type", Json.str "summary"), ("summary", Json.str "B")]] = some
      { messages := [], summary := Json.str "B", project_name := "unknown",
        session_id := Json.str "" } ∧
    ({ messages := [], summary := Json.str "B", project_name := "unknown",
        session_id := Json.str "" } : LoadState).summary =
      lastSummarySpec
        [some [("type", Json.str "summary"), ("summary", Json.str "A")],
         some [("type", Json.str "summary"), ("summary", Json.str "B")]] :=
  ⟨rfl, c3_last_summary_wins _ _ rfl⟩

theorem sanitize_filename_ok (f : String) :
    (∀ c ∈ (sanitize_filename f).toList, isForbiddenCh c = false) ∧
    (sanitize_filename f).length ≤ 100 := by
  unfold sanitize_filename
  have hmap : ∀ c ∈ (f.toList.map fun c => if isForbiddenCh c then '_' else c),
      isForbiddenCh c = false := by
    intro c hc
    obtain ⟨a, ha, rfl⟩ := List.mem_map.mp hc
    by_cases hfa : isForbiddenCh a = true
    · rw [if_pos hfa]
      decide
    · have hfa' : isForbiddenCh a = false := by
        cases hb : isForbiddenCh a
        · rfl
        · exact absurd hb hfa
      rw [if_neg hfa]
      exact hfa'
  by_cases hlen : (String.mk (f.toList.map fun c => if isForbiddenCh c then '_' else c)).length > 100
  · rw [if_pos hlen]
    constructor
    · intro c hc
      have hdecomp :
          (strTake (String.mk (f.toList.map fun c => if isForbiddenCh c then '_' else c)) 97 ++
            "...").toList =
          ((f.toList.map fun c => if isForbiddenCh c then '_' else c).take 97) ++
            ['.', '.', '.'] := rfl
      rw [hdecomp] at hc
      rcases List.mem_append.mp hc with h1 | h2
      · exact hmap c (List.mem_of_mem_take h1)
      · have hc' : c = '.' := by simpa using h2
        subst hc'
        decide
    · have hlapp :
          (strTake (String.mk (f.toList.map fun c => if isForbiddenCh c then '_' else c)) 97 ++
            "...").length =
          ((f.toList.map fun c => if isForbiddenCh c then '_' else c).take 97).length + 3 := by
        rw [String.length_append]
        rfl
      rw [hlapp, List.length_take]
      omega
  · rw [if_neg hlen]
    exact ⟨fun c hc => hmap c hc, by omega⟩

/-- Amended C4: when a summary exists the computed filename is fully sanitized
(no forbidden character survives) and capped at 100 characters; when no summary
exists the filename is the raw, unsanitized, untruncated
`project_name_sessionid8`. -/
theorem c4_filename_sanitization (summary : Json) (project_name : String) (session_id : Json) :
    (jTruthy summary = true →
      outputFilename summary project_name session_id =
        some (sanitize_filename (project_name ++ "_" ++ pyStr summary)) ∧
      ∀ c ∈ (sanitize_filename (project_name ++ "_" ++ pyStr summary)).toList,
        isForbiddenCh c = false) ∧
    (jTruthy summary = true →
      (sanitize_filename (project_name ++ "_" ++ pyStr summary)).length ≤ 100) ∧
    (jTruthy summary = false → ∀ s, session_id = Json.str s →
      outputFilename summary project_name session_id =
        some (project_name ++ "_" ++ strTake s 8)) := by
  refine ⟨?_, ?_, ?_⟩
  · intro ht
    refine ⟨?_, (sanitize_filename_ok _).1⟩
    unfold outputFilename
    rw [if_pos ht]
  · intro _
    exact (sanitize_filename_ok _).2
  · intro hf s hs
    unfold outputFilename
    rw [if_neg (by simp [hf]), hs]

/-- Counterexample for C4 as stated: with no summary and a project name
containing a forbidden character, the computed filename keeps that character
(the no-summary branch performs no sanitization at all). -/
theorem c4_counterexample :
    outputFilename (Json.str "") "a<b" (Json.str "sessionid123") = some "a<b_sessioni" ∧
    '<' ∈ "a<b_sessioni".toList := by
  constructor
  · rfl
  · decide

/-- Witness for the amended C4 at a summary containing a forbidden character. -/
theorem c4_filename_sanitization_witness :
    jTruthy (Json.str "S<um") = true ∧
    (outputFilename (Json.str "S<um") "p/n" (Json.str "x") =
        some (sanitize_filename ("p/n" ++ "_" ++ pyStr (Json.str "S<um"))) ∧
      ∀ c ∈ (sanitize_filename ("p/n" ++ "_" ++ pyStr (Json.str "S<um"))).toList,
        isForbiddenCh c = false) :=
  ⟨by decide, (c4_filename_sanitization (Json.str "S<um") "p/n" (Json.str "x")).1 (by decide)⟩

/-- The wall-clock fields of a parsed `datetime` (the timezone offset is parsed
for validity but not kept: `strftime` renders the wall time unchanged). -/
structure PyDateTime where
  year : Nat
  month : Nat
  day : Nat
  hour : Nat
  minute : Nat
  second : Nat

/-- Value of an ASCII digit character. -/
def digitVal (c : Char) : Nat := c.toNat - 48

/-- Exactly `w` leading digits as a number, with the remainder. -/
def takeNum (w : Nat) (l : List Char) : Option (Nat × List Char) :=
  let ds := l.take w
  if ds.length = w ∧ ds.all Char.isDigit then
    some (ds.foldl (fun a c => a * 10 + digitVal c) 0, l.drop w)
  else none

/-- Expect one specific character. -/
def expectCh (c : Char) : List Char → Option (List Char)
  | x :: t => if x = c then some t else none
  | [] => none

/-- Gregorian month lengths. -/
def daysInMonth (y m : Nat) : Nat :=
  if m = 2 then (if (y % 4 = 0 ∧ y % 100 ≠ 0) ∨ y % 400 = 0 then 29 else 28)
  else if m = 4 ∨ m = 6 ∨ m = 9 ∨ m = 11 then 30 else 31

/-- A syntactically complete UTC-offset suffix (or the end of the string). -/
def offsetEnd : List Char → Option Unit
  | [] => some ()
  | s :: r =>
    if s = '+' || s = '-' then do
      let (_, r1) ← takeNum 2 r
      match r1 with
      | [] => some ()
      | ':' :: r2 => do
        let (_, r3) ← takeNum 2 r2
        match r3 with
        | [] => some ()
        | ':' :: r4 => do
          let (_, r5) ← takeNum 2 r4
          if r5 = [] then some () else none
        | _ => none
      | _ => do
        let (_, r2) ← takeNum 2 r1
        if r2 = [] then some () else none
    else none

/-- The time-of-day part `HH[:MM[:SS[.f+]]][offset]`. -/
def parseHMS (l : List Char) : Option (Nat × Nat × Nat) := do
  let (h, r1) ← takeNum 2 l
  match r1 with
  | ':' :: r2 => do
    let (mi, r3) ← takeNum 2 r2
    match r3 with
    | ':' :: r4 => do
      let (se, r5) ← takeNum 2 r4
      let r6 ←
        (match r5 with
          | '.' :: r7 =>
            let ds := r7.takeWhile Char.isDigit
            if ds ≠ [] then some (r7.dropWhile Char.isDigit) else none
          | _ => some r5)
      let _ ← offsetEnd r6
      some (h, mi, se)
    | _ => do
      let _ ← offsetEnd r3
      some (h, mi, 0)
  | _ => do
    let _ ← offsetEnd r1
    some (h, 0, 0)

/-- Model of `datetime.fromisoformat` on the ISO-8601 forms this pipeline
meets: `YYYY-MM-DD`, optionally a one-character separator and a time part with
optional fraction and offset; component ranges are validated. -/
def pyFromIso (s : String) : Option PyDateTime := do
  let l := s.toList
  let (y, r1) ← takeNum 4 l
  let r2 ← expectCh '-' r1
  let (mo, r3) ← takeNum 2 r2
  let r4 ← expectCh '-' r3
  let (d, r5) ← takeNum 2 r4
  if 1 ≤ mo ∧ mo ≤ 12 ∧ 1 ≤ d ∧ d ≤ daysInMonth y mo then
    match r5 with
    | [] => some { year := y, month := mo, day := d, hour := 0, minute := 0, second := 0 }
    | _ :: r6 => do
      let (h, mi, se) ← parseHMS r6
      if h ≤ 23 ∧ mi ≤ 59 ∧ se ≤ 59 then
        some { year := y, month := mo, day := d, hour := h, minute := mi, second := se }
      else none
  else none

/-- Python `timestamp.replace("Z", "+00:00")` (a one-character pattern, so a
character-wise expansion). -/
def replaceZ (l : List Char) : List Char :=
  l.foldr
    (fun c acc =>
      if c = 'Z' then '+' :: '0' :: '0' :: ':' :: '0' :: '0' :: acc else c :: acc)
    []

/-- Digit character. -/
def digitChar (n : Nat) : Char := Char.ofNat (48 + n)

/-- Decimal digits of a natural number (most significant first). -/
def natToDigits (n : Nat) : List Char :=
  if h : n < 10 then [digitChar n]
  else natToDigits (n / 10) ++ [digitChar (n % 10)]
decreasing_by
  exact Nat.div_lt_self (by omega) (by omega)

/-- Zero-padded decimal rendering of width `w` (wider numbers keep all digits),
as `strftime` pads its numeric fields. -/
def padNum (w n : Nat) : List Char :=
  let ds := natToDigits n
  List.replicate (w - ds.length) '0' ++ ds

/-- The date half of `strftime("%Y-%m-%d %H:%M:%S UTC")`. -/
def strftimeDate (dt : PyDateTime) : List Char :=
  padNum 4 dt.year ++ ['-'] ++ padNum 2 dt.month ++ ['-'] ++ padNum 2 dt.day

/-- The time half of the same format. -/
def strftimeTime (dt : PyDateTime) : List Char :=
  padNum 2 dt.hour ++ [':'] ++ padNum 2 dt.minute ++ [':'] ++ padNum 2 dt.second

/-- `dt.strftime("%Y-%m-%d %H:%M:%S UTC")`. -/
def pyStrftime (dt : PyDateTime) : String :=
  String.mk (strftimeDate dt ++ ' ' :: (strftimeTime dt ++ ' ' :: ['U', 'T', 'C']))

/-- `format_timestamp` from the source: replace `Z` by `+00:00`, try
`fromisoformat`, render on success, return the raw string on failure. -/
def format_timestamp (timestamp : String) : String :=
  match pyFromIso (String.mk (replaceZ timestamp.toList)) with
  | some dt => pyStrftime dt
  | none => timestamp

/-- `format_timestamp` applied to a JSON field value: Python raises a
`TypeError` (`none` here) when the value is not a string. -/
def format_timestamp_j : Json → Option String
  | .str s => some (format_timestamp s)
  | _ => none

/-- Python `s.split()` intermediate: split at every whitespace character,
keeping empty pieces. -/
def splitWsRaw : List Char → List (List Char)
  | [] => [[]]
  | c :: t =>
    match splitWsRaw t with
    | cur :: rest => if isPySpace c then [] :: cur :: rest else (c :: cur) :: rest
    | [] => [[]]

/-- Python `s.split()` with no argument: whitespace-separated tokens, no
empties. -/
def pySplitWsL (l : List Char) : List (List Char) :=
  (splitWsRaw l).filter (· ≠ [])

/-- The truthy `timestamp` fields of the records, in order
(`[msg.get("timestamp") for msg in messages if msg.get("timestamp")]`). -/
def tsList (messages : List Entry) : List Json :=
  messages.filterMap fun m =>
    let t := jGetD m "timestamp" Json.null
    if jTruthy t then some t else none

/-- `extract_session_metadata` from the source: the optional `time_range`
entry of the metadata dict; the outer `Option` is the raising outcome
(non-string truthy timestamp at either end). -/
def extract_session_metadata (messages : List Entry) : Option (Option String) :=
  match tsList messages with
  | [] => some none
  | t0 :: rest => do
    let start_time ← format_timestamp_j t0
    let end_time ← format_timestamp_j ((t0 :: rest).getLast (List.cons_ne_nil t0 rest))
    match pySplitWsL start_time.toList, pySplitWsL end_time.toList with
    | _ :: sp1 :: _, _ :: ep1 :: _ =>
      some (some ("‚è∞ " ++ String.mk sp1 ++ " - " ++ String.mk ep1))
    | _, _ => some none

theorem splitWsRaw_ne_nil (l : List Char) : splitWsRaw l ≠ [] := by
  cases l with
  | nil => simp [splitWsRaw]
  | cons c t =>
    unfold splitWsRaw
    cases h : splitWsRaw t with
    | nil => simp
    | cons cur rest =>
      dsimp only
      split <;> simp

theorem splitWsRaw_space (c : Char) (hc : isPySpace c = true) (l : List Char) :
    splitWsRaw (c :: l) = [] :: splitWsRaw l := by
  show (match splitWsRaw l with
    | cur :: rest => if isPySpace c then [] :: cur :: rest else (c :: cur) :: rest
    | [] => [[]]) = [] :: splitWsRaw l
  cases h : splitWsRaw l with
  | nil => exact absurd h (splitWsRaw_ne_nil l)
  | cons cur rest => simp [hc]

theorem splitWsRaw_nonspace (c : Char) (hc : isPySpace c = false) (l cur : List Char)
    (rest : List (List Char)) (h : splitWsRaw l = cur :: rest) :
    splitWsRaw (c :: l) = (c :: cur) :: rest := by
  show (match splitWsRaw l with
    | cur :: rest => if isPySpace c then [] :: cur :: rest else (c :: cur) :: rest
    | [] => [[]]) = (c :: cur) :: rest
  rw [h]
  simp [hc]

theorem splitWsRaw_token (a : List Char) (ha : ∀ c ∈ a, isPySpace c = false)
    (l cur : List Char) (rest : List (List Char)) (h : splitWsRaw l = cur :: rest) :
    splitWsRaw (a ++ l) = (a ++ cur) :: rest := by
  induction a with
  | nil => simpa using h
  | cons c t ih =>
    have hc := ha c (List.mem_cons_self c t)
    have ih2 := ih (fun x hx => ha x (List.mem_cons_of_mem c hx))
    rw [List.cons_append,
      splitWsRaw_nonspace c hc (t ++ l) (t ++ cur) rest ih2, List.cons_append]

theorem natToDigits_digits (n : Nat) : ∀ c ∈ natToDigits n, c.isDigit = true := by
  induction n using Nat.strong_induction_on with
  | _ n ih =>
    intro c hc
    rw [natToDigits] at hc
    by_cases h : n < 10
    · rw [dif_pos h] at hc
      have hcn : c = digitChar n := by simpa using hc
      subst hcn
      have hall : ∀ k < 10, (digitChar k).isDigit = true := by decide
      exact hall n h
    · rw [dif_neg h] at hc
      rcases List.mem_append.mp hc with h1 | h2
      · exact ih (n / 10) (Nat.div_lt_self (by omega) (by omega)) c h1
      · have hcn : c = digitChar (n % 10) := by simpa using h2
        subst hcn
        have hall : ∀ k < 10, (digitChar k).isDigit = true := by decide
        exact hall (n % 10) (Nat.mod_lt n (by omega))

theorem natToDigits_ne_nil (n : Nat) : natToDigits n ≠ [] := by
  rw [natToDigits]
  by_cases h : n < 10
  · rw [dif_pos h]
    simp
  · rw [dif_neg h]
    simp

theorem padNum_digits (w n : Nat) : ∀ c ∈ padNum w n, c.isDigit = true := by
  intro c hc
  unfold padNum at hc
  rcases List.mem_append.mp hc with h1 | h2
  · have : c = '0' := List.eq_of_mem_replicate h1
    subst this
    decide
  · exact natToDigits_digits n c h2

theorem padNum_ne_nil (w n : Nat) : padNum w n ≠ [] := by
  unfold padNum
  intro h
  rcases List.append_eq_nil.mp h with ⟨_, h2⟩
  exact natToDigits_ne_nil n h2

theorem digit_not_space (c : Char) (h : c.isDigit = true) : isPySpace c = false := by
  cases hsp : isPySpace c
  · rfl
  · exfalso
    unfold isPySpace at hsp
    simp only [Bool.or_eq_true, decide_eq_true_eq] at hsp
    rcases hsp with ((((h1 | h1) | h1) | h1) | h1) | h1 <;> subst h1 <;>
      exact absurd h (by decide)

theorem strftimeDate_nospace (dt : PyDateTime) :
    ∀ c ∈ strftimeDate dt, isPySpace c = false := by
  intro c hc
  unfold strftimeDate at hc
  simp only [List.mem_append, List.mem_singleton] at hc
  rcases hc with (((h | h) | h) | h) | h
  · exact digit_not_space c (padNum_digits 4 dt.year c h)
  · subst h; decide
  · exact digit_not_space c (padNum_digits 2 dt.month c h)
  · subst h; decide
  · exact digit_not_space c (padNum_digits 2 dt.day c h)

theorem strftimeTime_nospace (dt : PyDateTime) :
    ∀ c ∈ strftimeTime dt, isPySpace c = false := by
  intro c hc
  unfold strftimeTime at hc
  simp only [List.mem_append, List.mem_singleton] at hc
  rcases hc with (((h | h) | h) | h) | h
  · exact digit_not_space c (padNum_digits 2 dt.hour c h)
  · subst h; decide
  · exact digit_not_space c (padNum_digits 2 dt.minute c h)
  · subst h; decide
  · exact digit_not_space c (padNum_digits 2 dt.second c h)

theorem strftimeDate_ne_nil (dt : PyDateTime) : strftimeDate dt ≠ [] := by
  unfold strftimeDate
  intro h
  simp only [List.append_eq_nil] at h
  exact padNum_ne_nil 4 dt.year h.1.1.1.1

theorem strftimeTime_ne_nil (dt : PyDateTime) : strftimeTime dt ≠ [] := by
  unfold strftimeTime
  intro h
  simp only [List.append_eq_nil] at h
  exact padNum_ne_nil 2 dt.hour h.1.1.1.1

theorem pySplitWs_strftime (dt : PyDateTime) :
    pySplitWsL (pyStrftime dt).toList =
      [strftimeDate dt, strftimeTime dt, ['U', 'T', 'C']] := by
  have hUTC : splitWsRaw (['U', 'T', 'C'] : List Char) = [['U', 'T', 'C']] := rfl
  have h1 : splitWsRaw (' ' :: (['U', 'T', 'C'] : List Char)) = [] :: [['U', 'T', 'C']] := by
    rw [splitWsRaw_space ' ' (by decide) _, hUTC]
  have h2 : splitWsRaw (strftimeTime dt ++ ' ' :: ['U', 'T', 'C']) =
      [strftimeTime dt, ['U', 'T', 'C']] := by
    have := splitWsRaw_token (strftimeTime dt) (strftimeTime_nospace dt) _ _ _ h1
    rwa [List.append_nil] at this
  have h3 : splitWsRaw (' ' :: (strftimeTime dt ++ ' ' :: ['U', 'T', 'C'])) =
      [] :: [strftimeTime dt, ['U', 'T', 'C']] := by
    rw [splitWsRaw_space ' ' (by decide) _, h2]
  have h4 : splitWsRaw (strftimeDate dt ++ ' ' :: (strftimeTime dt ++ ' ' :: ['U', 'T', 'C'])) =
      [strftimeDate dt, strftimeTime dt, ['U', 'T', 'C']] := by
    have := splitWsRaw_token (strftimeDate dt) (strftimeDate_nospace dt) _ _ _ h3
    rwa [List.append_nil] at this
  show (splitWsRaw
      (strftimeDate dt ++ ' ' :: (strftimeTime dt ++ ' ' :: ['U', 'T', 'C']))).filter
        (· ≠ []) = _
  rw [h4]
  simp [List.filter_cons, strftimeDate_ne_nil dt, strftimeTime_ne_nil dt]

/-- Amended C8: the header time-range is present whenever both the first and
last non-empty timestamps parse as ISO-8601; it is omitted when no timestamps
exist, and when an unparsable endpoint contains no whitespace; but (contrary to
the claim as stated) an unparsable endpoint is not in general omitted, because
the code keys on whitespace tokens of the formatted string, not on parse
success. -/
theorem c8_time_range (messages : List Entry) :
    (tsList messages = [] → extract_session_metadata messages = some none) ∧
    (∀ (t0 : Json) (l : List Json), tsList messages = t0 :: l →
      ∀ (s0 s1 : String) (dt0 dt1 : PyDateTime), t0 = Json.str s0 →
        (t0 :: l).getLast (List.cons_ne_nil t0 l) = Json.str s1 →
        pyFromIso (String.mk (replaceZ s0.toList)) = some dt0 →
        pyFromIso (String.mk (replaceZ s1.toList)) = some dt1 →
        ∃ r, extract_session_metadata messages = some (some r)) ∧
    (∀ s0 : String, tsList messages = [Json.str s0] →
      pyFromIso (String.mk (replaceZ s0.toList)) = none →
      (∀ c ∈ s0.toList, isPySpace c = false) →
      extract_session_metadata messages = some none) := by
  refine ⟨?_, ?_, ?_⟩
  · intro h
    unfold extract_session_metadata
    rw [h]
  · intro t0 l hts s0 s1 dt0 dt1 ht0 hlast hp0 hp1
    subst ht0
    unfold extract_session_metadata
    rw [hts]
    have hf0 : format_timestamp s0 = pyStrftime dt0 := by
      unfold format_timestamp
      rw [hp0]
    have hf1 : format_timestamp s1 = pyStrftime dt1 := by
      unfold format_timestamp
      rw [hp1]
    refine ⟨"‚è∞ " ++ String.mk (strftimeTime dt0) ++ " - " ++
      String.mk (strftimeTime dt1), ?_⟩
    show (do
      let start_time ← format_timestamp_j (Json.str s0)
      let end_time ← format_timestamp_j
        ((Json.str s0 :: l).getLast (List.cons_ne_nil (Json.str s0) l))
      match pySplitWsL start_time.toList, pySplitWsL end_time.toList with
      | _ :: sp1 :: _, _ :: ep1 :: _ =>
        some (some ("‚è∞ " ++ String.mk sp1 ++ " - " ++ String.mk ep1))
      | _, _ => some none) = _
    rw [hlast]
    show (match pySplitWsL (format_timestamp s0).toList,
               pySplitWsL (format_timestamp s1).toList with
      | _ :: sp1 :: _, _ :: ep1 :: _ =>
        some (some ("‚è∞ " ++ String.mk sp1 ++ " - " ++ String.mk ep1))
      | _, _ => some none) = _
    rw [hf0, hf1, pySplitWs_strftime dt0, pySplitWs_strftime dt1]
  · intro s0 hts hfail hnospace
    unfold extract_session_metadata
    rw [hts]
    have hf0 : format_timestamp s0 = s0 := by
      unfold format_timestamp
      rw [hfail]
    show (match pySplitWsL (format_timestamp s0).toList,
               pySplitWsL (format_timestamp s0).toList with
      | _ :: sp1 :: _, _ :: ep1 :: _ =>
        some (some ("‚è∞ " ++ String.mk sp1 ++ " - " ++ String.mk ep1))
      | _, _ => some none) = some none
    rw [hf0]
    have hsplit : splitWsRaw s0.toList = [s0.toList] := by
      have h0 : splitWsRaw ([] : List Char) = [] :: [] := rfl
      have := splitWsRaw_token s0.toList hnospace [] [] [] h0
      simpa using this
    by_cases hnil : s0.toList = []
    · have hps : pySplitWsL s0.toList = [] := by
        rw [pySplitWsL, hsplit, hnil]
        rfl
      rw [hps]
    · have hps : pySplitWsL s0.toList = [s0.toList] := by
        rw [pySplitWsL, hsplit]
        simp
        exact hnil
      rw [hps]

/-- Counterexample for C8 as stated: the timestamp "hello world" is not
parsable as ISO-8601, yet the time-range is present (built from the second
whitespace token of the raw string). -/
theorem c8_counterexample :
    pyFromIso (String.mk (replaceZ "hello world".toList)) = none ∧
    extract_session_metadata [[("timestamp", Json.str "hello world")]] =
      some (some "‚è∞ world - world") := ⟨rfl, rfl⟩

/-- Witness for the amended C8 at a parsable Z-suffixed timestamp. -/
theorem c8_time_range_witness :
    tsList [[("timestamp", Json.str "2024-01-01T10:00:00Z")]] =
      [Json.str "2024-01-01T10:00:00Z"] ∧
    pyFromIso (String.mk (replaceZ "2024-01-01T10:00:00Z".toList)) =
      some { year := 2024, month := 1, day := 1, hour := 10, minute := 0, second := 0 } ∧
    ∃ r, extract_session_metadata [[("timestamp", Json.str "2024-01-01T10:00:00Z")]] =
      some (some r) := by
  refine ⟨rfl, rfl, ?_⟩
  exact (c8_time_range [[("timestamp", Json.str "2024-01-01T10:00:00Z")]]).2.1
    (Json.str "2024-01-01T10:00:00Z") [] rfl
    "2024-01-01T10:00:00Z" "2024-01-01T10:00:00Z"
    { year := 2024, month := 1, day := 1, hour := 10, minute := 0, second := 0 }
    { year := 2024, month := 1, day := 1, hour := 10, minute := 0, second := 0 }
    rfl rfl rfl rfl

/-- Python `sep.join(parts)` on strings. -/
def joinStrSep (sep : String) : List String → String
  | [] => ""
  | [x] => x
  | x :: y :: rest => x ++ sep ++ joinStrSep sep (y :: rest)

/-- The `msg.get("message", {}).get("content", "")` access shared by the filter
and both turn formatters; `none` models the `AttributeError` on a non-dict
`message` value. -/
def contentOf (msg : Entry) : Option Json :=
  match jGetD msg "message" (.obj []) with
  | .obj fs => some (jGetD fs "content" (.str ""))
  | _ => none

/-- The `time_display` computation of both turn formatters: second whitespace
token of the formatted timestamp when it has more than one, otherwise the
formatted string itself. -/
def timeDisplay (timestamp : Json) : Option String := do
  let ft ← format_timestamp_j timestamp
  match pySplitWsL ft.toList with
  | _ :: p1 :: _ => some (String.mk p1)
  | _ => some ft

/-- `format_header` from the source; `none` models the `TypeError` of slicing a
non-string session id. -/
def format_header (summary : Json) (project_name : String) (session_id : Json)
    (metadata : Option String) : Option String :=
  match session_id with
  | .str sid =>
    let title := if jTruthy summary then pyStr summary else "Claude Code Session"
    let p1 := "\uF8FF\u00FC\u00EC\u00C5 **" ++ project_name ++ "**"
    let p2 := "\uF8FF\u00FC\u00DC\u00EE `" ++ strTake sid 8 ++ "...`"
    let parts := [p1, p2] ++ (match metadata with | some tr => [tr] | none => [])
    some ("# \uF8FF\u00FC\u00ED\u00A8 " ++ title ++ "\n\n" ++ "<sub>" ++ joinStrSep " \u201A\u00C4\u00A2 " parts ++ "</sub>\n\n")
  | _ => none

/-- Python `haystack.find(needle, start)` scanning helper (absolute index). -/
def findSubAux (hay pat : List Char) (i : Nat) : Option Nat :=
  if pat.isPrefixOf hay then some i
  else
    match hay with
    | [] => none
    | _ :: t => findSubAux t pat (i + 1)

/-- Python `s.find(pat, start)`; `none` plays the role of `-1`. -/
def pyFind (s pat : String) (start : Nat) : Option Nat :=
  findSubAux (s.toList.drop start) pat.toList start

/-- Python `pat in s`. -/
def strContains (s pat : String) : Bool := (pyFind s pat 0).isSome

/-- Python `s[a:b]`. -/
def strSlice (s : String) (a b : Nat) : String := String.mk ((s.toList.drop a).take (b - a))

/-- Python `s.startswith(pre)`. -/
def strStartsWith (s pre : String) : Bool := pre.toList.isPrefixOf s.toList

/-- Fuel-driven Python `s.split(sep)` for a non-empty separator; fuel equal to
the string length is sufficient since each step consumes at least one
character. -/
def splitSepF (sep : List Char) : Nat → List Char → List (List Char)
  | _, [] => [[]]
  | 0, l => [l]
  | fuel + 1, c :: t =>
    if sep.isPrefixOf (c :: t) then
      [] :: splitSepF sep fuel ((c :: t).drop sep.length)
    else
      match splitSepF sep fuel t with
      | cur :: rest => (c :: cur) :: rest
      | [] => [[c]]

/-- Python `s.split(sep)`. -/
def pySplit (s sep : String) : List String :=
  (splitSepF sep.toList s.toList.length s.toList).map String.mk

/-- The body of the per-tool loop of `format_tool_heavy_response`: a
collapsible block containing the tool name, the embedded fenced JSON block when
found, and the re-cleaned tool result when the label is found and the remainder
starts with a fenced block after stripping (which stripping makes impossible
for non-empty remainders, faithfully to the source). -/
def formatToolPart (tool_part : String) : String :=
  let tool_lines := pySplit tool_part "\n"
  let tool_name :=
    match tool_lines with
    | l0 :: _ => pyStrip l0
    | [] => "Unknown"
  let base := "<details>\n<summary><sub>\uF8FF\u00FC\u00EE\u00DF <em>" ++ tool_name ++ "</em></sub></summary>\n\n"
  let withJson :=
    match pyFind tool_part "```json" 0 with
    | some js =>
      (match pyFind tool_part "```" (js + 7) with
        | some je => base ++ strSlice tool_part js (je + 3) ++ "\n\n"
        | none => base)
    | none => base
  let withResult :=
    match pyFind tool_part toolResultLabel 0 with
    | some rs =>
      let result_content := pyStrip (strDrop tool_part (rs + 16))
      if strStartsWith result_content "\n```" then
        withJson ++ "**Result:**\n" ++ clean_tool_output result_content ++ "\n\n"
      else withJson
    | none => withJson
  withResult ++ "</details>\n\n"

/-- `format_tool_heavy_response` from the source. -/
def format_tool_heavy_response (formatted_content : String) : String :=
  match pySplit formatted_content "**Tool Used:**" with
  | p0 :: p1 :: rest =>
    (if pyStrip p0 ≠ "" then pyStrip p0 ++ "\n\n" else "") ++
      joinStrSep "" ((p1 :: rest).map formatToolPart)
  | _ => formatted_content ++ "\n\n"

/-- `format_user_message` from the source. -/
def format_user_message (msg : Entry) : Option String := do
  let content ← contentOf msg
  let formatted := format_content content
  let td ← timeDisplay (jGetD msg "timestamp" (.str ""))
  some ("### \uF8FF\u00FC\u00EB\u00A7 <sub> " ++ td ++ "</sub>\n\n" ++ "> **" ++ formatted ++ "**\n\n")

/-- `format_assistant_message` from the source. -/
def format_assistant_message (msg : Entry) : Option String := do
  let content ← contentOf msg
  let formatted := format_content content
  let td ← timeDisplay (jGetD msg "timestamp" (.str ""))
  let body :=
    if strContains formatted "Tool Used:" then format_tool_heavy_response formatted
    else formatted ++ "\n\n"
  some ("### \uF8FF\u00FC\u00A7\u00F1 <sub> " ++ td ++ "</sub>\n\n" ++ body)

/-- The per-record dispatch of `generate_markdown`: user and assistant records
get a fragment, any other type contributes nothing (but is not skipped). -/
def fragFor (msg : Entry) : Option String :=
  let msg_type := jGetD msg "type" (Json.str "unknown")
  if jEqStr msg_type "user" then format_user_message msg
  else if jEqStr msg_type "assistant" then format_assistant_message msg
  else some ""

/-- The record loop of `generate_markdown`: `i` is the index of the head of the
remaining list in the original sequence and `n` the original length; a
separator follows each unskipped record with `i < n - 1`. -/
def genBody : List Entry → Nat → Nat → Option String
  | [], _, _ => some ""
  | msg :: rest, i, n => do
    let skip ← should_skip_message msg
    if skip then genBody rest (i + 1) n
    else do
      let frag ← fragFor msg
      let tail ← genBody rest (i + 1) n
      some (frag ++ (if i < n - 1 then "---\n\n" else "") ++ tail)

/-- `generate_markdown` from the source. -/
def generate_markdown (messages : List Entry) (summary : Json) (project_name : String)
    (session_id : Json) : Option String := do
  let metadata ← extract_session_metadata messages
  let header ← format_header summary project_name session_id metadata
  let body ← genBody messages 0 messages.length
  some (header ++ body)

/-- Outcome of processing one file: an error caught at the file boundary, no
document written, or a document with its computed filename and content (the
already-exists skip is an I/O concern outside this embedding). -/
inductive FileOutcome where
  | err
  | noDoc
  | doc (filename : String) (content : String)

/-- The pure core of `process_jsonl_file`: empty files and sessions with no
collected messages produce no document; exceptions anywhere produce `err`. -/
def process_jsonl_core (lines : List (Option Entry)) : FileOutcome :=
  if lines.isEmpty then .noDoc
  else
    match loadLoop initState lines with
    | none => .err
    | some st =>
      if st.messages.isEmpty then .noDoc
      else
        match outputFilename st.summary st.project_name st.session_id with
        | none => .err
        | some filename =>
          match generate_markdown st.messages st.summary st.project_name st.session_id with
          | none => .err
          | some content => .doc filename content

theorem loadLoop_all_summary (lines : List (Option Entry)) :
    ∀ st0 : LoadState,
    (∀ l ∈ lines, ∀ e : Entry, l = some e →
      jEqStr (jGetD e "type" Json.null) "summary" = true) →
    ∃ st, loadLoop st0 lines = some st ∧ st.messages = st0.messages := by
  induction lines with
  | nil =>
    intro st0 _
    exact ⟨st0, rfl, rfl⟩
  | cons l rest ih =>
    intro st0 h
    cases l with
    | none => exact ih st0 (fun x hx e he => h x (List.mem_cons_of_mem _ hx) e he)
    | some e =>
      have hsum := h (some e) (List.mem_cons_self _ _) e rfl
      have hstep : loadStep st0 e =
          some { st0 with summary := jGetD e "summary" (Json.str "") } := by
        unfold loadStep
        rw [if_pos hsum]
      obtain ⟨st, hloop, hmsg⟩ :=
        ih { st0 with summary := jGetD e "summary" (Json.str "") }
          (fun x hx e' he => h x (List.mem_cons_of_mem _ hx) e' he)
      refine ⟨st, ?_, hmsg⟩
      show (match loadStep st0 e with
        | none => none
        | some st2 => loadLoop st2 rest) = some st
      rw [hstep]
      exact hloop

/-- C7: a file whose valid lines are all summary-typed (or that has no valid
lines at all, including the empty file) collects no messages and produces no
output document. -/
theorem c7_summary_only_no_doc (lines : List (Option Entry))
    (h : ∀ l ∈ lines, ∀ e : Entry, l = some e →
      jEqStr (jGetD e "type" Json.null) "summary" = true) :
    process_jsonl_core lines = FileOutcome.noDoc := by
  unfold process_jsonl_core
  by_cases hempty : lines.isEmpty = true
  · rw [if_pos hempty]
  · rw [if_neg hempty]
    obtain ⟨st, hloop, hmsg⟩ := loadLoop_all_summary lines initState h
    rw [hloop]
    have hnil : st.messages.isEmpty = true := by
      rw [hmsg]
      rfl
    show (if st.messages.isEmpty = true then FileOutcome.noDoc
      else
        match outputFilename st.summary st.project_name st.session_id with
        | none => FileOutcome.err
        | some filename =>
          match generate_markdown st.messages st.summary st.project_name st.session_id with
          | none => FileOutcome.err
          | some content => FileOutcome.doc filename content) = FileOutcome.noDoc
    rw [if_pos hnil]

/-- Witness for C7 at a file with one summary line. -/
theorem c7_summary_only_no_doc_witness :
    (∀ l ∈ [some [("type", Json.str "summary"), ("summary", Json.str "S")]], ∀ e : Entry,
      l = some e → jEqStr (jGetD e "type" Json.null) "summary" = true) ∧
    process_jsonl_core [some [("type", Json.str "summary"), ("summary", Json.str "S")]] =
      FileOutcome.noDoc := by
  have hp : ∀ l ∈ [some [("type", Json.str "summary"), ("summary", Json.str "S")]],
      ∀ e : Entry, l = some e → jEqStr (jGetD e "type" Json.null) "summary" = true := by
    intro l hl e he
    have hlx := List.mem_singleton.mp hl
    subst hlx
    injection he with he2
    subst he2
    rfl
  exact ⟨hp, c7_summary_only_no_doc _ hp⟩

/-- Records whose `timestamp` field, when present, is a string — the shape on
which `format_timestamp` does not raise. -/
def tsShapeOk (m : Entry) : Bool :=
  match jGet m "timestamp" with
  | none => true
  | some (.str _) => true
  | _ => false

/-- Records on which every per-record step of `generate_markdown` returns
instead of raising. -/
def entryOk (m : Entry) : Bool := msgShapeOk m && tsShapeOk m

theorem contentOf_isSome (m : Entry) (h : msgShapeOk m = true) : ∃ c, contentOf m = some c := by
  unfold msgShapeOk at h
  unfold contentOf jGetD
  cases hm : jGet m "message" with
  | none => exact ⟨_, rfl⟩
  | some j =>
    rw [hm] at h
    cases j with
    | obj fs => exact ⟨_, rfl⟩
    | null => exact Bool.noConfusion h
    | bool b => exact Bool.noConfusion h
    | num n => exact Bool.noConfusion h
    | str s => exact Bool.noConfusion h
    | arr l => exact Bool.noConfusion h

theorem tsGetD_str (m : Entry) (h : tsShapeOk m = true) :
    ∃ s, jGetD m "timestamp" (Json.str "") = Json.str s := by
  unfold tsShapeOk at h
  unfold jGetD
  cases hm : jGet m "timestamp" with
  | none => exact ⟨"", rfl⟩
  | some j =>
    rw [hm] at h
    cases j with
    | str s => exact ⟨s, rfl⟩
    | null => exact Bool.noConfusion h
    | bool b => exact Bool.noConfusion h
    | num n => exact Bool.noConfusion h
    | arr l => exact Bool.noConfusion h
    | obj fs => exact Bool.noConfusion h

theorem timeDisplay_str (s : String) : ∃ r, timeDisplay (Json.str s) = some r := by
  show ∃ r, (match pySplitWsL (format_timestamp s).toList with
    | _ :: p1 :: _ => some (String.mk p1)
    | _ => some (format_timestamp s)) = some r
  cases pySplitWsL (format_timestamp s).toList with
  | nil => exact ⟨_, rfl⟩
  | cons a t =>
    cases t with
    | nil => exact ⟨_, rfl⟩
    | cons b t2 => exact ⟨_, rfl⟩

theorem fragFor_isSome (m : Entry) (h : entryOk m = true) : ∃ s, fragFor m = some s := by
  have hpair : msgShapeOk m = true ∧ tsShapeOk m = true := by simpa [entryOk] using h
  obtain ⟨c, hc⟩ := contentOf_isSome m hpair.1
  obtain ⟨ts, hts⟩ := tsGetD_str m hpair.2
  obtain ⟨td, htd⟩ := timeDisplay_str ts
  unfold fragFor
  by_cases hu : jEqStr (jGetD m "type" (Json.str "unknown")) "user" = true
  · rw [if_pos hu]
    unfold format_user_message
    rw [hc, hts, htd]
    exact ⟨_, rfl⟩
  · rw [if_neg hu]
    by_cases ha : jEqStr (jGetD m "type" (Json.str "unknown")) "assistant" = true
    · rw [if_pos ha]
      unfold format_assistant_message
      rw [hc, hts, htd]
      exact ⟨_, rfl⟩
    · rw [if_neg ha]
      exact ⟨"", rfl⟩

theorem metadata_isSome (messages : List Entry) (h : ∀ m ∈ messages, entryOk m = true) :
    ∃ md, extract_session_metadata messages = some md := by
  have htsall : ∀ t ∈ tsList messages, ∃ s, t = Json.str s := by
    intro t ht
    unfold tsList at ht
    obtain ⟨m, hm, hsome⟩ := List.mem_filterMap.mp ht
    by_cases htr : jTruthy (jGetD m "timestamp" Json.null) = true
    · rw [if_pos htr] at hsome
      injection hsome with hv
      have h2 : tsShapeOk m = true := by
        have := h m hm
        simp [entryOk] at this
        exact this.2
      unfold tsShapeOk at h2
      unfold jGetD at htr hv
      cases hm2 : jGet m "timestamp" with
      | none =>
        rw [hm2] at htr
        exact Bool.noConfusion htr
      | some j =>
        rw [hm2] at h2 hv
        cases j with
        | str s => exact ⟨s, hv.symm⟩
        | null => exact Bool.noConfusion h2
        | bool b => exact Bool.noConfusion h2
        | num n => exact Bool.noConfusion h2
        | arr l => exact Bool.noConfusion h2
        | obj fs => exact Bool.noConfusion h2
    · rw [if_neg htr] at hsome
      exact Option.noConfusion hsome
  unfold extract_session_metadata
  cases htl : tsList messages with
  | nil => exact ⟨none, rfl⟩
  | cons t0 rest =>
    have hmem0 : t0 ∈ tsList messages := by
      rw [htl]
      exact List.mem_cons_self t0 rest
    have hmemL : (t0 :: rest).getLast (List.cons_ne_nil t0 rest) ∈ tsList messages := by
      rw [htl]
      exact List.getLast_mem _
    obtain ⟨s0, hs0⟩ := htsall t0 hmem0
    obtain ⟨s1, hs1⟩ := htsall _ hmemL
    subst hs0
    show ∃ md, (do
      let start_time ← format_timestamp_j (Json.str s0)
      let end_time ← format_timestamp_j
        ((Json.str s0 :: rest).getLast (List.cons_ne_nil (Json.str s0) rest))
      match pySplitWsL start_time.toList, pySplitWsL end_time.toList with
      | _ :: sp1 :: _, _ :: ep1 :: _ =>
        some (some ("‚è∞ " ++ String.mk sp1 ++ " - " ++ String.mk ep1))
      | _, _ => some none) = some md
    rw [hs1]
    show ∃ md, (match pySplitWsL (format_timestamp s0).toList,
               pySplitWsL (format_timestamp s1).toList with
      | _ :: sp1 :: _, _ :: ep1 :: _ =>
        some (some ("‚è∞ " ++ String.mk sp1 ++ " - " ++ String.mk ep1))
      | _, _ => some none) = some md
    cases pySplitWsL (format_timestamp s0).toList with
    | nil => exact ⟨_, rfl⟩
    | cons a t =>
      cases t with
      | nil => exact ⟨_, rfl⟩
      | cons b t2 =>
        cases pySplitWsL (format_timestamp s1).toList with
        | nil => exact ⟨_, rfl⟩
        | cons c t3 =>
          cases t3 with
          | nil => exact ⟨_, rfl⟩
          | cons d t4 => exact ⟨_, rfl⟩

/-- The pieces of the body as the code actually assembles them (amended C5):
a record skipped by the filter contributes nothing at all, and an unskipped
record contributes its fragment followed by a separator exactly when its
position in the original sequence is not the last one. -/
def sepPieces (n : Nat) : Nat → List Entry → List String
  | _, [] => []
  | i, m :: rest =>
    (if (should_skip_message m).getD true then ""
     else ((fragFor m).getD "") ++ (if i < n - 1 then "---\n\n" else "")) ::
    sepPieces n (i + 1) rest

/-- Concatenation of string pieces. -/
def concatStrs : List String → String
  | [] => ""
  | s :: rest => s ++ concatStrs rest

theorem genBody_closed (n : Nat) (msgs : List Entry) :
    ∀ i : Nat, (∀ m ∈ msgs, entryOk m = true) →
    genBody msgs i n = some (concatStrs (sepPieces n i msgs)) := by
  induction msgs with
  | nil =>
    intro i _
    rfl
  | cons m rest ih =>
    intro i h
    have hok := h m (List.mem_cons_self m rest)
    have hrest := fun x hx => h x (List.mem_cons_of_mem m hx)
    have h1 : msgShapeOk m = true := by
      have := hok
      simp [entryOk] at this
      exact this.1
    have hskip := c1_core m h1
    unfold genBody
    rw [hskip]
    show (if pyStrip (format_content (claimContentC1 m)) == "" then genBody rest (i + 1) n
      else do
        let frag ← fragFor m
        let tail ← genBody rest (i + 1) n
        some (frag ++ (if i < n - 1 then "---\n\n" else "") ++ tail)) = _
    by_cases hb : (pyStrip (format_content (claimContentC1 m)) == "") = true
    · rw [if_pos hb, ih (i + 1) hrest]
      have hcons : sepPieces n i (m :: rest) = "" :: sepPieces n (i + 1) rest := by
        show (if (should_skip_message m).getD true then ""
          else ((fragFor m).getD "") ++ (if i < n - 1 then "---\n\n" else "")) ::
            sepPieces n (i + 1) rest = _
        rw [hskip]
        simp only [Option.getD_some]
        rw [if_pos hb]
      rw [hcons]
      rfl
    · rw [if_neg hb]
      obtain ⟨fs, hfrag⟩ := fragFor_isSome m hok
      rw [hfrag, ih (i + 1) hrest]
      have hcons : sepPieces n i (m :: rest) =
          (fs ++ (if i < n - 1 then "---\n\n" else "")) :: sepPieces n (i + 1) rest := by
        show (if (should_skip_message m).getD true then ""
          else ((fragFor m).getD "") ++ (if i < n - 1 then "---\n\n" else "")) ::
            sepPieces n (i + 1) rest = _
        rw [hskip, hfrag]
        simp only [Option.getD_some]
        rw [if_neg hb]
      rw [hcons]
      rfl

/-- Amended C5: skipped records contribute neither fragment nor separator;
each record passing the filter contributes its fragment (empty for types other
than user/assistant) followed by a separator exactly when its position in the
original input sequence is not the last — so the separator decision mixes
filter passage with original position, rather than applying to every record. -/
theorem c5_separator_placement (msgs : List Entry) (summary : Json) (pn : String)
    (sid : String) (h : ∀ m ∈ msgs, entryOk m = true) :
    ∃ md header, extract_session_metadata msgs = some md ∧
      format_header summary pn (Json.str sid) md = some header ∧
      generate_markdown msgs summary pn (Json.str sid) =
        some (header ++ concatStrs (sepPieces msgs.length 0 msgs)) := by
  obtain ⟨md, hmd⟩ := metadata_isSome msgs h
  refine ⟨md, _, hmd, rfl, ?_⟩
  unfold generate_markdown
  rw [hmd]
  show (do
    let header ← format_header summary pn (Json.str sid) md
    let body ← genBody msgs 0 msgs.length
    some (header ++ body)) = _
  rw [genBody_closed msgs.length msgs 0 h]
  rfl

/-- The assembly rule as claim C5 states it: a piece for every record
position, with a separator after every position except the last of the
original sequence, regardless of whether the record was skipped. -/
def sepPiecesClaim (n : Nat) : Nat → List Entry → List String
  | _, [] => []
  | i, m :: rest =>
    ((if (should_skip_message m).getD true then "" else (fragFor m).getD "") ++
      (if i < n - 1 then "---\n\n" else "")) :: sepPiecesClaim n (i + 1) rest

/-- Counterexample for C5 as stated: with a skipped first record and an
emitted second record, the code emits no separator at all, while the claimed
rule places one after the first (skipped) record. -/
theorem c5_counterexample :
    generate_markdown
      [[("type", Json.str "user"), ("message", Json.obj [("content", Json.str " ")])],
       [("type", Json.str "user"), ("message", Json.obj [("content", Json.str "hi")])]]
      (Json.str "") "proj" (Json.str "sid") ≠
    Option.map
      (fun header => header ++ concatStrs (sepPiecesClaim 2 0
        [[("type", Json.str "user"), ("message", Json.obj [("content", Json.str " ")])],
         [("type", Json.str "user"), ("message", Json.obj [("content", Json.str "hi")])]]))
      ((extract_session_metadata
        [[("type", Json.str "user"), ("message", Json.obj [("content", Json.str " ")])],
         [("type", Json.str "user"), ("message", Json.obj [("content", Json.str "hi")])]]).bind
        (format_header (Json.str "") "proj" (Json.str "sid"))) := by decide

/-- Witness for the amended C5 at a one-record session. -/
theorem c5_separator_placement_witness :
    (∀ m ∈ [[("type", Json.str "user"), ("message", Json.obj [("content", Json.str "hi")])]],
      entryOk m = true) ∧
    (∃ md header,
      extract_session_metadata
        [[("type", Json.str "user"), ("message", Json.obj [("content", Json.str "hi")])]] =
        some md ∧
      format_header (Json.str "") "proj" (Json.str "sid") md = some header ∧
      generate_markdown
        [[("type", Json.str "user"), ("message", Json.obj [("content", Json.str "hi")])]]
        (Json.str "") "proj" (Json.str "sid") =
        some (header ++ concatStrs (sepPieces
          ([[("type", Json.str "user"),
             ("message", Json.obj [("content", Json.str "hi")])]] : List Entry).length 0
          [[("type", Json.str "user"), ("message", Json.obj [("content", Json.str "hi")])]]))) :=
  ⟨by decide,
    c5_separator_placement
      [[("type", Json.str "user"), ("message", Json.obj [("content", Json.str "hi")])]]
      (Json.str "") "proj" "sid" (by decide)⟩
